import Mathlib

/-!
# Verification of the commit-log parser/formatter (`git_log2csv.py`)

A shallow embedding of the Python script `git_log2csv.py` and proofs about it.
The script wraps a version-control command, parses its fixed-template log
output into commit records, filters fields, and writes a tabular file.

Python string primitives are modelled over `List Char` so that every
definition is executable and kernel-reducible:
* `splitOnChar` models `str.split(sep)` for a one-character separator
  (keeps empty pieces; `"".split(sep) == ['']`),
* `pyStrip` models `str.strip()`,
* `pyIn` models `c in s` for a single character,
* `pyJoin` models `sep.join(list)`,
* `startswith` models `str.startswith`.
Fallible Python operations (list indexing, `int(...)`) are embedded in
`Except String`.
-/

/-- Models Python `str.split(sep)` for a single-character separator, on
`List Char`: splits at every occurrence and keeps empty pieces. -/
def splitCharsOn (sep : Char) : List Char → List (List Char)
  | [] => [[]]
  | c :: cs =>
    match splitCharsOn sep cs with
    | [] => if c = sep then [[], []] else [[c]]
    | h :: t => if c = sep then [] :: h :: t else (c :: h) :: t

/-- Models Python `str.split(sep)` for a single-character separator:
`"".split(sep) == ['']`, empty pieces are kept. -/
def splitOnChar (sep : Char) (s : String) : List String :=
  (splitCharsOn sep s.toList).map String.mk

/-- Models Python `str.strip()`: removes whitespace from both ends. -/
def pyStrip (s : String) : String :=
  String.mk (((s.toList.dropWhile Char.isWhitespace).reverse.dropWhile
    Char.isWhitespace).reverse)

/-- Models Python `c in s` for a single character `c`. -/
def pyIn (c : Char) (s : String) : Bool :=
  s.toList.contains c

/-- Models Python `sep.join(pieces)`. -/
def pyJoin (sep : String) : List String → String
  | [] => ""
  | [s] => s
  | s :: ss => s ++ sep ++ pyJoin sep ss

/-- Models Python `s.startswith(p)`. -/
def startswith (s p : String) : Bool :=
  p.toList.isPrefixOf s.toList

/-- Models Python `s[:-1]` (drop the final character; `"" → ""`). -/
def pyDropLast (s : String) : String :=
  String.mk s.toList.dropLast

/-- Models Python `int(s)`: optional surrounding whitespace, optional sign,
then a non-empty digit string; anything else raises `ValueError`. -/
def pyInt (s : String) : Except String Int :=
  let t := pyStrip s
  match t.toList with
  | [] => .error "ValueError"
  | c :: cs =>
    let (sign, digits) : Int × List Char :=
      if c = '-' then (-1, cs) else if c = '+' then (1, cs) else (1, c :: cs)
    if digits ≠ [] ∧ digits.all Char.isDigit then
      .ok (sign * (digits.foldl (fun n d => n * 10 + (d.toNat - 48)) 0 : Nat))
    else .error "ValueError"

deriving instance DecidableEq for Except

/-- The record-start sentinel used by the forced `--pretty` template
(source line 126). -/
def START_OF_COMMIT : String := "@@@@@@@@@@"

/-- One per-file change entry: `{'ins': fields[0], 'del': fields[1],
'path': fields[2]}` from a tab-split numstat line (source line 172). -/
structure FileEntry where
  ins : String
  del : String
  path : String
deriving DecidableEq, Repr

/-- One parsed commit dictionary.  The Python dict contains a key only when
the field filter admits it, so every field is an `Option` (source
lines 175-192). -/
structure CommitRecord where
  sha : Option String
  name : Option String
  email : Option String
  date : Option String
  date_iso : Option String
  subject : Option String
  files : Option (List FileEntry)
  parents : Option (List String)
  tree : Option String
deriving DecidableEq, Repr

/-- `not json_flags or c in json_flags`: the condition under which a field is
put into the commit dict (source lines 176-191). -/
def includeField (json_flags : String) (c : Char) : Bool :=
  (json_flags == "") || pyIn c json_flags

/-- Builds the commit dict of source lines 175-192: each field is present
exactly when `includeField` admits its one-character code. -/
def mkRecord (json_flags sha name email date date_iso : String)
    (parents : List String) (tree subject : String)
    (files : List FileEntry) : CommitRecord where
  sha := if includeField json_flags 'h' then some sha else none
  name := if includeField json_flags 'a' then some name else none
  email := if includeField json_flags 'e' then some email else none
  date := if includeField json_flags 'd' then some date else none
  date_iso := if includeField json_flags 'd' then some date_iso else none
  subject := if includeField json_flags 's' then some subject else none
  files := if includeField json_flags 'f' then some files else none
  parents := if includeField json_flags 'p' then some parents else none
  tree := if includeField json_flags 't' then some tree else none

/-- The numstat-line heuristic of source lines 169-170: the line is non-empty
and its first character is a digit or a dash. -/
def isNumstatStart (l : String) : Bool :=
  (l != "") && (l.front.isDigit || l.front == '-')

/-- The numstat loop of source lines 169-173: consume lines while the
heuristic holds, tab-splitting each into the three fields `ins`, `del`,
`path` (a line with fewer than three tab-separated fields raises
`IndexError`).  Returns the collected entries and the unconsumed suffix. -/
def parseNumstat : List String → Except String (List FileEntry) × List String
  | [] => (.ok [], [])
  | l :: rest =>
    if isNumstatStart l then
      match splitOnChar '\t' l with
      | f0 :: f1 :: f2 :: _ =>
        let r := parseNumstat rest
        (r.1.map (fun fs => ⟨f0, f1, f2⟩ :: fs), r.2)
      | _ => (.error "IndexError", l :: rest)
    else (.ok [], l :: rest)

theorem parseNumstat_rest_le (ls : List String) :
    (parseNumstat ls).2.length ≤ ls.length := by
  induction ls with
  | nil => simp [parseNumstat]
  | cons l rest ih =>
    simp only [parseNumstat]
    split
    · split
      · simpa using Nat.le_succ_of_le ih
      · simp
    · simp

/-- The commit-parsing loop of source lines 144-194: at each round, stop on a
blank line, skip the marker line, read the eight header lines, read the
optional numstat block, build the (filtered) commit dict, and continue.
Out-of-range line accesses raise `IndexError`, aborting the whole parse. -/
def parseCommits (json_flags : String) (lines : List String) :
    Except String (List CommitRecord) :=
  match lines with
  | [] => .ok []
  | m :: rest =>
    if m = "" then .ok []
    else
      match rest with
      | sha :: name :: email :: date :: date_iso :: par :: tree :: subject ::
          rest8 =>
        match rest8 with
        | [] => .error "IndexError"
        | l :: rest9 =>
          if l ≠ START_OF_COMMIT then
            let r := parseNumstat rest9
            match r.1 with
            | .error e => .error e
            | .ok files =>
              match parseCommits json_flags r.2 with
              | .error e => .error e
              | .ok cs =>
                .ok (mkRecord json_flags sha name email date date_iso
                  (splitOnChar ' ' par) tree subject files :: cs)
          else
            match parseCommits json_flags (l :: rest9) with
            | .error e => .error e
            | .ok cs =>
              .ok (mkRecord json_flags sha name email date date_iso
                (splitOnChar ' ' par) tree subject [] :: cs)
      | _ => .error "IndexError"
termination_by lines.length
decreasing_by
  · simp only [List.length_cons]
    have := parseNumstat_rest_le rest
    omega
  · simp only [List.length_cons]
    omega

/-- `remove_elements` of source lines 41-55 (list form): keep an element
exactly when no removal string is a leading piece of it. -/
def remove_elements (string_list strings_to_remove : List String) :
    List String :=
  string_list.filter
    (fun el => !(strings_to_remove.any (fun r => startswith el r)))

/-- `check_flags` of source lines 69-76, as the `has_error` flag it computes:
true exactly when some incoming character is not among the allowed ones
(in which case the script exits with status -2). -/
def check_flags (incoming_flags allowed_flags : String) : Bool :=
  incoming_flags.toList.any (fun c => !(pyIn c allowed_flags))

/-- `has_flag` of source lines 59-64: scan for a single-dash argument
containing the flag character.  `arg[0]` on an empty argument and `arg[1]`
on a bare dash raise `IndexError`. -/
def has_flag (all_args : List String) (flag_to_check : Char) :
    Except String Bool :=
  match all_args with
  | [] => .ok false
  | arg :: rest =>
    if arg = "" then .error "IndexError"
    else if arg.front = '-' then
      if arg.length < 2 then .error "IndexError"
      else if arg.get ⟨1⟩ ≠ '-' then
        if pyIn flag_to_check arg then .ok true
        else has_flag rest flag_to_check
      else has_flag rest flag_to_check
    else has_flag rest flag_to_check

/-- One aggregated author of the shortlog summary (source lines 102-105);
the `email` key is present only when the email flag is set. -/
structure AuthorEntry where
  name : String
  email : Option String
  count : Int
deriving DecidableEq, Repr

/-- One round of the shortlog line loop (source lines 91-105): strip the
line, split on tabs; with fewer than two fields the line is skipped.
Otherwise the first field must parse as an integer count and the rest,
re-joined with spaces, is the author label.  With the email flag, the label
is split on `<`: exactly two parts give name and email (the trailing
character of the second part is dropped), any other count silently drops
the entry. -/
def parseShortlogLine (email_flag : Bool) (line : String) :
    Except String (Option AuthorEntry) :=
  let l := pyStrip line
  match splitOnChar '\t' l with
  | f0 :: f1 :: frest =>
    match pyInt f0 with
    | .error e => .error e
    | .ok count =>
      let author := pyJoin " " (f1 :: frest)
      if email_flag then
        match splitOnChar '<' author with
        | [a, b] => .ok (some ⟨pyStrip a, some (pyDropLast (pyStrip b)), count⟩)
        | _ => .ok none
      else .ok (some ⟨author, none, count⟩)
  | _ => .ok none

/-- The full shortlog line loop, in input order. -/
def parseShortlogLines (email_flag : Bool) :
    List String → Except String (List AuthorEntry)
  | [] => .ok []
  | l :: rest =>
    match parseShortlogLine email_flag l with
    | .error e => .error e
    | .ok none => parseShortlogLines email_flag rest
    | .ok (some a) =>
      match parseShortlogLines email_flag rest with
      | .error e => .error e
      | .ok es => .ok (a :: es)

/-- `git_shortlog` of source lines 80-109, as a function of the original
argument list and the lines of the captured command output: scan the three
flags (before anything else), then build author entries only when the
summary flag is present. -/
def git_shortlog (args outputLines : List String) :
    Except String (List AuthorEntry) :=
  match has_flag args 's' with
  | .error e => .error e
  | .ok summary_flag =>
    match has_flag args 'n' with
    | .error e => .error e
    | .ok _numbered_flag =>
      match has_flag args 'e' with
      | .error e => .error e
      | .ok email_flag =>
        if summary_flag then parseShortlogLines email_flag outputLines
        else .ok []

/-- Models `json.dumps` on one author entry (string escaping is not
modelled; no claim depends on it). -/
def dumpAuthorEntry (e : AuthorEntry) : String :=
  match e.email with
  | some em =>
    "\x7b\"name\": \"" ++ e.name ++ "\", \"email\": \"" ++ em ++
      "\", \"count\": " ++ toString e.count ++ "\x7d"
  | none =>
    "\x7b\"name\": \"" ++ e.name ++ "\", \"count\": " ++
      toString e.count ++ "\x7d"

/-- Models `json.dumps(author_entries)` (source line 109); on the empty
list it prints `[]`. -/
def dumpAuthorEntries (es : List AuthorEntry) : String :=
  "[" ++ pyJoin ", " (es.map dumpAuthorEntry) ++ "]"

/-- What the shortlog command prints: the JSON rendering of its entries. -/
def git_shortlog_output (args outputLines : List String) :
    Except String String :=
  (git_shortlog args outputLines).map dumpAuthorEntries

/-- One row of the flattened table produced from the commit list. -/
structure Row where
  ins : String
  del : String
  path : String
  name : String
  date_iso : String
  subject : String
  sha : String
deriving DecidableEq, Repr

/-- Models `pandas.json_normalize` on a single record with
`record_path=['files']` and `meta=['name', 'date_iso', 'subject', 'sha']`
(source line 198): a missing key raises `KeyError`; each file entry yields
one row, so an empty `files` list yields no rows. -/
def flattenRecord (r : CommitRecord) : Except String (List Row) :=
  match r.files with
  | none => .error "KeyError"
  | some fs =>
    match r.name, r.date_iso, r.subject, r.sha with
    | some n, some di, some s, some h =>
      .ok (fs.map (fun f => ⟨f.ins, f.del, f.path, n, di, s, h⟩))
    | _, _, _, _ => .error "KeyError"

/-- Models `pandas.json_normalize` over the record list: the rows of all
records concatenated in order; the first missing key aborts. -/
def json_normalize : List CommitRecord → Except String (List Row)
  | [] => .ok []
  | r :: rs =>
    match flattenRecord r with
    | .error e => .error e
    | .ok rows =>
      match json_normalize rs with
      | .error e => .error e
      | .ok rest => .ok (rows ++ rest)

/-- Models `DataFrame.to_csv` (source line 199) at the level of rows of
cells: a header row (the index column plus the seven data columns) and one
row per flattened record, indexed from 0.  An empty frame has no columns
and produces a single blank line. -/
def toCsv (rows : List Row) : List (List String) :=
  match rows with
  | [] => [[]]
  | _ =>
    ["", "ins", "del", "path", "name", "date_iso", "subject", "sha"] ::
      rows.enum.map (fun p =>
        [toString p.1, p.2.ins, p.2.del, p.2.path, p.2.name, p.2.date_iso,
          p.2.subject, p.2.sha])

/-- The distinct failure kinds of the log pipeline. -/
inductive LogError where
  | usage (msg : String)
  | parse (msg : String)
  | normalize (msg : String)
deriving DecidableEq, Repr

/-- `git_log` of source lines 113-199, as a function of the filter string
and the lines of the captured command output: check the filter characters
first (an unrecognized one exits with a usage error before anything else
runs), then parse the commits, flatten them with `json_normalize`, and
render the csv table written to `log.csv`. -/
def git_log (json_flags : String) (outputLines : List String) :
    Except LogError (List (List String)) :=
  if check_flags json_flags "aehdsfpt" then .error (.usage "Unrecognized flag")
  else
    match parseCommits json_flags outputLines with
    | .error e => .error (.parse e)
    | .ok commits =>
      match json_normalize commits with
      | .error e => .error (.normalize e)
      | .ok rows => .ok (toCsv rows)

/-- The argument list composed by source lines 122-130: the formatting
arguments removed, then the forced template, `--date=local` and
`--numstat` appended. -/
def composedArgs (args : List String) : List String :=
  remove_elements args
    ["--oneline", "--pretty", "--parents", "--children", "--graph",
      "--notes", "--show_notes"] ++
  ["--pretty=tformat:" ++ START_OF_COMMIT ++
      "%n%h%n%aN%n%aE%n%at%n%ai%n%p%n%t%n%s",
    "--date=local", "--numstat"]

/-- The command line actually executed by source line 136:
`subprocess.getoutput` on a hard-coded string.  The composed argument list
is never used there. -/
def invokedCommandLine (args : List String) : String :=
  "git log --pretty=tformat:@@@@@@@@@@%n%h%n%aN%n%aE%n%at%n%ai%n%p%n%t%n%s --date=local --numstat"

/-- One record block of the fixed output template: the marker line, the
eight header lines, then (when any change statistics exist) a blank
separator line followed by the numstat lines. -/
structure Block where
  sha : String
  name : String
  email : String
  date : String
  date_iso : String
  parentsLine : String
  tree : String
  subject : String
  numstat : List String
deriving DecidableEq, Repr

/-- The lines of one rendered block. -/
def renderBlock (b : Block) : List String :=
  [START_OF_COMMIT, b.sha, b.name, b.email, b.date, b.date_iso,
    b.parentsLine, b.tree, b.subject] ++
  (if b.numstat = [] then [] else "" :: b.numstat)

/-- The concatenation of the rendered blocks. -/
def renderBlocks : List Block → List String
  | [] => []
  | b :: bs => renderBlock b ++ renderBlocks bs

/-- A full well-formed stream: the rendered blocks followed by the final
blank line (the captured output ends in a newline, so splitting on
newlines leaves a trailing empty line). -/
def renderStream (bs : List Block) : List String :=
  renderBlocks bs ++ [""]

/-- A numstat line of a well-formed block: non-empty, first character a
digit or a dash, and at least three tab-separated fields. -/
def numstatLineOK (l : String) : Prop :=
  l ≠ "" ∧ (l.front.isDigit ∨ l.front = '-') ∧
    3 ≤ (splitOnChar '\t' l).length

instance : DecidablePred numstatLineOK := fun l => by
  unfold numstatLineOK; infer_instance

/-- Well-formedness of a block: every numstat line has the numstat shape,
and no header line collides with the marker sentinel. -/
def WFBlock (b : Block) : Prop :=
  (∀ l ∈ b.numstat, numstatLineOK l) ∧
  b.sha ≠ START_OF_COMMIT ∧ b.name ≠ START_OF_COMMIT ∧
  b.email ≠ START_OF_COMMIT ∧ b.date ≠ START_OF_COMMIT ∧
  b.date_iso ≠ START_OF_COMMIT ∧ b.parentsLine ≠ START_OF_COMMIT ∧
  b.tree ≠ START_OF_COMMIT ∧ b.subject ≠ START_OF_COMMIT

instance (b : Block) : Decidable (WFBlock b) := by
  unfold WFBlock; infer_instance

/-- The file entry a well-formed numstat line denotes: its first three
tab-separated fields. -/
def numstatEntry (l : String) : FileEntry :=
  match splitOnChar '\t' l with
  | f0 :: f1 :: f2 :: _ => ⟨f0, f1, f2⟩
  | _ => ⟨"", "", ""⟩

/-- The commit record a well-formed block parses to under a given filter
string. -/
def blockRecord (json_flags : String) (b : Block) : CommitRecord :=
  mkRecord json_flags b.sha b.name b.email b.date b.date_iso
    (splitOnChar ' ' b.parentsLine) b.tree b.subject
    (b.numstat.map numstatEntry)

/-- A single-dash flag argument carrying the character `c`: starts with a
dash, its second character is not a dash, and it contains `c`. -/
def singleDashFlagWith (c : Char) (arg : String) : Prop :=
  arg ≠ "" ∧ arg.front = '-' ∧ 2 ≤ arg.length ∧
    arg.get ⟨1⟩ ≠ '-' ∧ pyIn c arg

instance (c : Char) (arg : String) : Decidable (singleDashFlagWith c arg) := by
  unfold singleDashFlagWith; infer_instance

/-- A sample block with two file changes, used in concrete end-to-end
computations. -/
def blockTwoFiles : Block :=
  ⟨"abc1", "Alice", "a@x.com", "100", "2020-01-01 10:00:00 +0000", "",
    "t1", "first commit", ["3\t1\tfoo.txt", "2\t0\tbar.txt"]⟩

/-- A sample block with no file changes. -/
def blockZeroFiles : Block :=
  ⟨"abc2", "Bob", "b@x.com", "200", "2020-01-02 10:00:00 +0000", "abc1",
    "t2", "second commit", []⟩

/-- The two-commit scenario stream: one commit with two file changes, one
with none. -/
def scenarioStream : List String :=
  renderStream [blockTwoFiles, blockZeroFiles]

theorem isNumstatStart_marker : isNumstatStart START_OF_COMMIT = false := by
  decide

theorem marker_ne_blank : START_OF_COMMIT ≠ "" := by decide

theorem blank_ne_marker : ("" : String) ≠ START_OF_COMMIT := by decide

theorem numstatLineOK_start {l : String} (h : numstatLineOK l) :
    isNumstatStart l = true := by
  obtain ⟨h1, h2, -⟩ := h
  simp only [isNumstatStart, Bool.and_eq_true, bne_iff_ne, ne_eq,
    Bool.or_eq_true, beq_iff_eq]
  exact ⟨h1, h2⟩

theorem numstatLineOK_ne_marker {l : String} (h : numstatLineOK l) :
    l ≠ START_OF_COMMIT := by
  intro he
  exact absurd (he ▸ numstatLineOK_start h) (by decide)

/-- The numstat loop consumes exactly the well-formed numstat lines and
stops at the first line failing the heuristic. -/
theorem parseNumstat_spec (ls rest : List String)
    (h1 : ∀ l ∈ ls, numstatLineOK l)
    (h2 : rest = [] ∨ ∃ r rs, rest = r :: rs ∧ isNumstatStart r = false) :
    parseNumstat (ls ++ rest) = (.ok (ls.map numstatEntry), rest) := by
  induction ls with
  | nil =>
    simp only [List.nil_append, List.map_nil]
    rcases h2 with rfl | ⟨r, rs, rfl, hr⟩
    · rfl
    · simp [parseNumstat, hr]
  | cons l ls ih =>
    have hl := h1 l (by simp)
    have hstart := numstatLineOK_start hl
    have h3 := hl.2.2
    rcases hsp : splitOnChar '\t' l with _ | ⟨f0, _ | ⟨f1, _ | ⟨f2, t⟩⟩⟩ <;>
      rw [hsp] at h3
    · simp at h3
    · simp at h3
    · simp at h3
    · simp only [List.cons_append, parseNumstat, hstart, if_true, hsp]
      try simp only [List.append_eq]
      rw [ih (fun x hx => h1 x (by simp [hx]))]
      simp [numstatEntry, hsp, Except.map]

theorem parseCommits_nil (fl : String) : parseCommits fl [] = .ok [] := by
  simp [parseCommits]

theorem parseCommits_blank (fl : String) (rest : List String) :
    parseCommits fl ("" :: rest) = .ok [] := by
  rw [parseCommits.eq_def]; rfl

/-- Parsing one well-formed block followed by a continuation that is either
the final blank line or starts with the marker: the block yields exactly
one record, and the continuation is parsed unchanged after it. -/
theorem parseCommits_block (fl : String) (b : Block) (rest : List String)
    (hb : ∀ l ∈ b.numstat, numstatLineOK l)
    (hrest : rest = [""] ∨ ∃ rs, rest = START_OF_COMMIT :: rs) :
    parseCommits fl (renderBlock b ++ rest) =
      (parseCommits fl rest).map (fun cs => blockRecord fl b :: cs) := by
  have hstop : rest = [] ∨
      ∃ r rs, rest = r :: rs ∧ isNumstatStart r = false := by
    rcases hrest with rfl | ⟨rs, rfl⟩
    · exact Or.inr ⟨"", [], rfl, by decide⟩
    · exact Or.inr ⟨START_OF_COMMIT, rs, rfl, isNumstatStart_marker⟩
  rcases hns : b.numstat with _ | ⟨n0, ns⟩
  · -- no numstat block: the nine lines are followed directly by `rest`
    rcases hrest with rfl | ⟨rs, rfl⟩
    · simp [renderBlock, hns, parseCommits, parseNumstat, blockRecord,
        parseCommits_blank, Except.map, marker_ne_blank, blank_ne_marker]
    · have hr : renderBlock b = [START_OF_COMMIT, b.sha, b.name, b.email,
          b.date, b.date_iso, b.parentsLine, b.tree, b.subject] := by
        simp [renderBlock, hns]
      rw [hr]
      cases hrec : parseCommits fl (START_OF_COMMIT :: rs) <;>
        simp [parseCommits, marker_ne_blank, hrec, Except.map,
          blockRecord, hns]
  · -- a numstat block: blank separator, then the numstat lines
    have hr : renderBlock b ++ rest =
        START_OF_COMMIT :: b.sha :: b.name :: b.email :: b.date ::
          b.date_iso :: b.parentsLine :: b.tree :: b.subject :: "" ::
          (n0 :: (ns ++ rest)) := by
      simp [renderBlock, hns]
    rw [hr]
    have hsp := parseNumstat_spec (n0 :: ns) rest (hns ▸ hb) hstop
    simp only [List.cons_append] at hsp
    cases hrec : parseCommits fl rest <;>
      simp [parseCommits, marker_ne_blank, blank_ne_marker, hsp, hrec,
        Except.map, blockRecord, hns]

/-- Parsing the rendered blocks followed by such a continuation prepends one
record per block, in order. -/
theorem parseCommits_blocks (fl : String) (bs : List Block)
    (rest : List String)
    (hwf : ∀ b ∈ bs, ∀ l ∈ b.numstat, numstatLineOK l)
    (hrest : rest = [""] ∨ ∃ rs, rest = START_OF_COMMIT :: rs) :
    parseCommits fl (renderBlocks bs ++ rest) =
      (parseCommits fl rest).map
        (fun cs => bs.map (blockRecord fl) ++ cs) := by
  induction bs with
  | nil =>
    simp only [renderBlocks, List.nil_append, List.map_nil]
    cases parseCommits fl rest <;> simp [Except.map]
  | cons b bs ih =>
    have hr2 : renderBlocks bs ++ rest = [""] ∨
        ∃ rs, renderBlocks bs ++ rest = START_OF_COMMIT :: rs := by
      cases bs with
      | nil => simpa [renderBlocks] using hrest
      | cons b' bs' =>
        exact Or.inr ⟨b'.sha :: b'.name :: b'.email :: b'.date ::
          b'.date_iso :: b'.parentsLine :: b'.tree :: b'.subject ::
          ((if b'.numstat = [] then [] else "" :: b'.numstat) ++
            (renderBlocks bs' ++ rest)),
          by simp [renderBlocks, renderBlock]⟩
    rw [renderBlocks, List.append_assoc,
      parseCommits_block fl b _ (hwf b (by simp)) hr2,
      ih (fun x hx => hwf x (by simp [hx]))]
    cases parseCommits fl rest <;> simp [Except.map]

/-- A marker line followed by fewer than eight further lines: reading the
header raises `IndexError`. -/
theorem parseCommits_truncated (fl : String) (tail : List String)
    (h : tail.length < 8) :
    parseCommits fl (START_OF_COMMIT :: tail) = .error "IndexError" := by
  rcases tail with _ | ⟨a1, _ | ⟨a2, _ | ⟨a3, _ | ⟨a4, _ | ⟨a5, _ | ⟨a6,
    _ | ⟨a7, rest⟩⟩⟩⟩⟩⟩⟩
  · simp [parseCommits, marker_ne_blank]
  · simp [parseCommits, marker_ne_blank]
  · simp [parseCommits, marker_ne_blank]
  · simp [parseCommits, marker_ne_blank]
  · simp [parseCommits, marker_ne_blank]
  · simp [parseCommits, marker_ne_blank]
  · simp [parseCommits, marker_ne_blank]
  · have hlen : rest.length = 0 := by
      simp at h
      omega
    have hr := List.length_eq_zero.mp hlen
    subst hr
    simp [parseCommits, marker_ne_blank]

/-- Each well-formed block contributes exactly one marker line. -/
theorem count_renderBlock (b : Block) (hb : WFBlock b) :
    (renderBlock b).count START_OF_COMMIT = 1 := by
  obtain ⟨hn, h1, h2, h3, h4, h5, h6, h7, h8⟩ := hb
  have hzero : ∀ l ∈ b.numstat, l ≠ START_OF_COMMIT :=
    fun l hl => numstatLineOK_ne_marker (hn l hl)
  rw [renderBlock, List.count_append]
  have hns : (if b.numstat = [] then ([] : List String)
      else "" :: b.numstat).count START_OF_COMMIT = 0 := by
    split
    · simp
    · rw [List.count_cons, List.count_eq_zero.mpr]
      · simp [START_OF_COMMIT]
      · intro hmem
        exact hzero _ hmem rfl
  rw [hns]
  simp [List.count_cons, h1, h2, h3, h4, h5, h6, h7, h8,
    Ne.symm h1, Ne.symm h2, Ne.symm h3, Ne.symm h4, Ne.symm h5,
    Ne.symm h6, Ne.symm h7, Ne.symm h8]

/-- The rendered stream holds exactly one marker line per block. -/
theorem count_renderStream (bs : List Block) (hwf : ∀ b ∈ bs, WFBlock b) :
    (renderStream bs).count START_OF_COMMIT = bs.length := by
  unfold renderStream
  induction bs with
  | nil => simp [renderBlocks, START_OF_COMMIT]
  | cons b bs ih =>
    rw [renderBlocks, List.append_assoc, List.count_append,
      count_renderBlock b (hwf b (by simp)),
      ih (fun x hx => hwf x (by simp [hx]))]
    simp [List.length_cons, Nat.add_comm]

theorem isSome_ite {α : Type} (b : Bool) (x : α) :
    (if b then some x else none).isSome = b := by
  cases b <;> simp

/-- The commit dict built by `mkRecord` holds each field exactly when the
filter admits its code. -/
theorem mkRecord_fields (fl sha name email date date_iso : String)
    (parents : List String) (tree subject : String)
    (files : List FileEntry) :
    (mkRecord fl sha name email date date_iso parents tree subject
        files).files.isSome = includeField fl 'f' ∧
    (mkRecord fl sha name email date date_iso parents tree subject
        files).name.isSome = includeField fl 'a' ∧
    (mkRecord fl sha name email date date_iso parents tree subject
        files).date_iso.isSome = includeField fl 'd' ∧
    (mkRecord fl sha name email date date_iso parents tree subject
        files).subject.isSome = includeField fl 's' ∧
    (mkRecord fl sha name email date date_iso parents tree subject
        files).sha.isSome = includeField fl 'h' := by
  refine ⟨?_, ?_, ?_, ?_, ?_⟩ <;> simp [mkRecord, isSome_ite]

/-- Every record the parser emits carries each of the five csv-relevant
fields exactly when the filter admits it. -/
theorem parseCommits_fields (fl : String) (lines : List String) :
    ∀ cs, parseCommits fl lines = .ok cs → ∀ c ∈ cs,
      c.files.isSome = includeField fl 'f' ∧
      c.name.isSome = includeField fl 'a' ∧
      c.date_iso.isSome = includeField fl 'd' ∧
      c.subject.isSome = includeField fl 's' ∧
      c.sha.isSome = includeField fl 'h' := by
  induction lines using parseCommits.induct fl with
  | case1 =>
    intro cs hp c hc
    rw [parseCommits_nil] at hp
    simp only [Except.ok.injEq] at hp
    subst hp
    simp at hc
  | case2 rest =>
    intro cs hp c hc
    rw [parseCommits_blank] at hp
    simp only [Except.ok.injEq] at hp
    subst hp
    simp at hc
  | case3 l hl sha name email date date_iso par tree subject =>
    intro cs hp c hc
    rw [parseCommits.eq_def] at hp
    simp [hl] at hp
  | case4 l hl sha name email date date_iso par tree subject l1 rest hne
      r e he =>
    intro cs hp c hc
    have he2 : (parseNumstat rest).1 = Except.error e := he
    rw [parseCommits.eq_def] at hp
    simp [hl, hne, he2] at hp
  | case5 l hl sha name email date date_iso par tree subject l1 rest hne
      r files hok e he ih =>
    intro cs hp c hc
    have hok2 : (parseNumstat rest).1 = Except.ok files := hok
    have he2 : parseCommits fl (parseNumstat rest).2 = Except.error e := he
    rw [parseCommits.eq_def] at hp
    simp [hl, hne, hok2, he2] at hp
  | case6 l hl sha name email date date_iso par tree subject l1 rest hne
      r files hok cs' hok2 ih =>
    intro cs hp c hc
    have hok3 : (parseNumstat rest).1 = Except.ok files := hok
    have hok4 : parseCommits fl (parseNumstat rest).2 = Except.ok cs' := hok2
    rw [parseCommits.eq_def] at hp
    simp only [hl, hne, hok3, hok4, if_neg, if_pos, ite_not,
      Except.ok.injEq, reduceIte, ite_false, ite_true] at hp
    subst hp
    rcases List.mem_cons.mp hc with rfl | hc2
    · exact mkRecord_fields fl sha name email date date_iso
        (splitOnChar ' ' par) tree subject files
    · exact ih cs' hok4 c hc2
  | case7 l hl sha name email date date_iso par tree subject l1 rest hne
      e he =>
    intro cs hp c hc
    simp only [not_not] at hne
    subst hne
    rw [parseCommits.eq_def] at hp
    simp [hl, he] at hp
  | case8 l hl sha name email date date_iso par tree subject l1 rest hne
      cs' hok ih =>
    intro cs hp c hc
    simp only [not_not] at hne
    subst hne
    rw [parseCommits.eq_def] at hp
    simp only [hl, hok, if_neg, if_pos, ite_not, Except.ok.injEq,
      reduceIte] at hp
    subst hp
    rcases List.mem_cons.mp hc with rfl | hc2
    · exact mkRecord_fields fl sha name email date date_iso
        (splitOnChar ' ' par) tree subject []
    · exact ih cs' hok c hc2
  | case9 l rest hl hshape =>
    intro cs hp c hc
    rcases rest with _ | ⟨a1, _ | ⟨a2, _ | ⟨a3, _ | ⟨a4, _ | ⟨a5, _ | ⟨a6,
      _ | ⟨a7, _ | ⟨a8, rest9⟩⟩⟩⟩⟩⟩⟩⟩
    · rw [parseCommits.eq_def] at hp; simp [hl] at hp
    · rw [parseCommits.eq_def] at hp; simp [hl] at hp
    · rw [parseCommits.eq_def] at hp; simp [hl] at hp
    · rw [parseCommits.eq_def] at hp; simp [hl] at hp
    · rw [parseCommits.eq_def] at hp; simp [hl] at hp
    · rw [parseCommits.eq_def] at hp; simp [hl] at hp
    · rw [parseCommits.eq_def] at hp; simp [hl] at hp
    · rw [parseCommits.eq_def] at hp; simp [hl] at hp
    · exact (hshape a1 a2 a3 a4 a5 a6 a7 a8 rest9 rfl).elim

/-- A flag scan that completed with `false` checked every argument, so any
other scan over the same list also returns without an `IndexError`. -/
theorem has_flag_ok_of_false {args : List String} {c : Char}
    (h : has_flag args c = .ok false) (c' : Char) :
    ∃ b, has_flag args c' = .ok b := by
  induction args with
  | nil => exact ⟨false, rfl⟩
  | cons arg rest ih =>
    rw [has_flag] at h
    by_cases h0 : arg = ""
    · rw [if_pos h0] at h; simp at h
    · rw [if_neg h0] at h
      by_cases h1 : arg.front = '-'
      · rw [if_pos h1] at h
        by_cases h2 : arg.length < 2
        · rw [if_pos h2] at h; simp at h
        · rw [if_neg h2] at h
          by_cases h3 : arg.get ⟨1⟩ ≠ '-'
          · rw [if_pos h3] at h
            by_cases h4 : pyIn c arg = true
            · rw [if_pos h4] at h; simp at h
            · rw [if_neg h4] at h
              obtain ⟨b, hb⟩ := ih h
              by_cases h5 : pyIn c' arg = true
              · exact ⟨true, by
                  rw [has_flag, if_neg h0, if_pos h1, if_neg h2, if_pos h3,
                    if_pos h5]⟩
              · exact ⟨b, by
                  rw [has_flag, if_neg h0, if_pos h1, if_neg h2, if_pos h3,
                    if_neg h5, hb]⟩
          · rw [if_neg h3] at h
            obtain ⟨b, hb⟩ := ih h
            exact ⟨b, by
              rw [has_flag, if_neg h0, if_pos h1, if_neg h2, if_neg h3, hb]⟩
      · rw [if_neg h1] at h
        obtain ⟨b, hb⟩ := ih h
        exact ⟨b, by rw [has_flag, if_neg h0, if_neg h1, hb]⟩

/-- If every argument is non-empty, every dash-led argument has a second
character, and no argument is a single-dash flag containing `c`, the scan
returns `false`. -/
theorem has_flag_false_of_safe (args : List String) (c : Char)
    (hsafe : ∀ arg ∈ args, arg ≠ "" ∧ (arg.front = '-' → 2 ≤ arg.length))
    (hno : ∀ arg ∈ args, ¬ singleDashFlagWith c arg) :
    has_flag args c = .ok false := by
  induction args with
  | nil => rfl
  | cons arg rest ih =>
    obtain ⟨h0, hlen⟩ := hsafe arg (by simp)
    have hrec := ih (fun a ha => hsafe a (by simp [ha]))
      (fun a ha => hno a (by simp [ha]))
    rw [has_flag, if_neg h0]
    by_cases h1 : arg.front = '-'
    · have h2 : ¬ arg.length < 2 := by have := hlen h1; omega
      rw [if_pos h1, if_neg h2]
      by_cases h3 : arg.get ⟨1⟩ ≠ '-'
      · have h4 : ¬(pyIn c arg = true) := by
          intro hpy
          exact hno arg (by simp) ⟨h0, h1, hlen h1, h3, hpy⟩
        rw [if_pos h3, if_neg h4]
        exact hrec
      · rw [if_neg h3]; exact hrec
    · rw [if_neg h1]; exact hrec

/-- The whole parse of the two-commit scenario stream. -/
theorem parseCommits_scenario (fl : String) :
    parseCommits fl scenarioStream =
      .ok [blockRecord fl blockTwoFiles, blockRecord fl blockZeroFiles] := by
  rw [scenarioStream, renderStream,
    parseCommits_blocks fl [blockTwoFiles, blockZeroFiles] [""]
      (by decide) (Or.inl rfl),
    parseCommits_blank]
  rfl

/-- The csv table of the two-commit scenario has a header row plus two data
rows: the zero-file commit contributes none. -/
theorem git_log_scenario_len :
    (git_log "" scenarioStream).map List.length = .ok 3 := by
  unfold git_log
  rw [if_neg (by decide), parseCommits_scenario]
  rfl

theorem json_normalize_length (cs : List CommitRecord) :
    ∀ rows, json_normalize cs = .ok rows →
      rows.length = (cs.map (fun c => (c.files.getD []).length)).sum := by
  induction cs with
  | nil =>
    intro rows h
    rw [json_normalize] at h
    simp only [Except.ok.injEq] at h
    subst h
    simp
  | cons c cs ih =>
    intro rows h
    rw [json_normalize] at h
    rcases hf : flattenRecord c with e | r1 <;> rw [hf] at h
    · simp at h
    rcases hj : json_normalize cs with e | rest <;> rw [hj] at h
    · simp at h
    simp only [Except.ok.injEq] at h
    subst h
    have hr1 : r1.length = (c.files.getD []).length := by
      unfold flattenRecord at hf
      rcases hcf : c.files with _ | fs <;> rw [hcf] at hf
      · simp at hf
      rcases hcn : c.name with _ | n <;> rw [hcn] at hf
      · simp at hf
      rcases hcd : c.date_iso with _ | di <;> rw [hcd] at hf
      · simp at hf
      rcases hcs : c.subject with _ | s <;> rw [hcs] at hf
      · simp at hf
      rcases hch : c.sha with _ | sh <;> rw [hch] at hf
      · simp at hf
      simp only [Except.ok.injEq] at hf
      subst hf
      simp
    simp [hr1, ih rest hj]

/-- C1: for every well-formed input stream following the fixed template,
the log parser produces exactly one commit record per marker line, in the
same order the markers appear, and each record's fields are taken from the
eight lines after the marker in fixed order: sha, name, email, date,
date_iso, parents (split on spaces), tree, subject. -/
theorem log_parser_one_record_per_marker (fl : String) (bs : List Block)
    (hwf : ∀ b ∈ bs, WFBlock b) :
    parseCommits fl (renderStream bs) = .ok (bs.map (blockRecord fl)) ∧
    (renderStream bs).count START_OF_COMMIT = bs.length := by
  refine ⟨?_, count_renderStream bs hwf⟩
  rw [renderStream, parseCommits_blocks fl bs [""]
    (fun b hb => (hwf b hb).1) (Or.inl rfl), parseCommits_blank]
  simp [Except.map]

theorem log_parser_one_record_per_marker_witness :
    (∀ b ∈ [blockTwoFiles, blockZeroFiles], WFBlock b) ∧
    parseCommits "" (renderStream [blockTwoFiles, blockZeroFiles]) =
      .ok ([blockTwoFiles, blockZeroFiles].map (blockRecord "")) :=
  ⟨by decide, (log_parser_one_record_per_marker ""
    [blockTwoFiles, blockZeroFiles] (by decide)).1⟩

/-- C2: a commit whose header block is followed immediately by the next
marker line gets an empty files list with no numstat lines consumed;
otherwise one separator line is skipped, then a line is consumed as a
numstat entry exactly when its first character is a digit or a dash, each
consumed line is split on tabs into the fields ins, del and path, and
consumption stops at the first line failing the heuristic. -/
theorem numstat_consumption (fl sha name email date date_iso par tree
    subject sep l : String) (rest rem : List String) (fs : List FileEntry) :
    (parseCommits fl (START_OF_COMMIT :: sha :: name :: email :: date ::
        date_iso :: par :: tree :: subject :: START_OF_COMMIT :: rest) =
      (parseCommits fl (START_OF_COMMIT :: rest)).map
        (fun cs => mkRecord fl sha name email date date_iso
          (splitOnChar ' ' par) tree subject [] :: cs)) ∧
    (isNumstatStart l = false →
      parseNumstat (l :: rest) = (.ok [], l :: rest)) ∧
    (∀ f0 f1 f2 t, isNumstatStart l = true →
      splitOnChar '\t' l = f0 :: f1 :: f2 :: t →
      parseNumstat (l :: rest) =
        ((parseNumstat rest).1.map (fun gs => FileEntry.mk f0 f1 f2 :: gs),
          (parseNumstat rest).2)) ∧
    (sep ≠ START_OF_COMMIT → parseNumstat rest = (.ok fs, rem) →
      parseCommits fl (START_OF_COMMIT :: sha :: name :: email :: date ::
          date_iso :: par :: tree :: subject :: sep :: rest) =
        (parseCommits fl rem).map
          (fun cs => mkRecord fl sha name email date date_iso
            (splitOnChar ' ' par) tree subject fs :: cs)) := by
  refine ⟨?_, ?_, ?_, ?_⟩
  · cases hrec : parseCommits fl (START_OF_COMMIT :: rest) <;>
      simp [parseCommits, marker_ne_blank, hrec, Except.map]
  · intro h
    simp [parseNumstat, h]
  · intro f0 f1 f2 t h hsp
    simp [parseNumstat, h, hsp]
  · intro hsep hpn
    cases hrec : parseCommits fl rem <;>
      simp [parseCommits, marker_ne_blank, hsep, hpn, hrec, Except.map]

theorem numstat_consumption_witness :
    parseNumstat ["3\t1\tfoo.txt", ""] =
      (.ok [⟨"3", "1", "foo.txt"⟩], [""]) ∧
    parseNumstat ["-\t-\tbin.dat", ""] =
      (.ok [⟨"-", "-", "bin.dat"⟩], [""]) ∧
    parseNumstat ["", "x"] = (.ok [], ["", "x"]) := by
  refine ⟨?_, ?_, ?_⟩
  · have h := (numstat_consumption "" "s" "n" "e" "d" "i" "p" "t" "j" ""
      "3\t1\tfoo.txt" [""] [""] []).2.2.1 "3" "1" "foo.txt" []
      (by decide) (by decide)
    rw [h]
    decide
  · have h := (numstat_consumption "" "s" "n" "e" "d" "i" "p" "t" "j" ""
      "-\t-\tbin.dat" [""] [""] []).2.2.1 "-" "-" "bin.dat" []
      (by decide) (by decide)
    rw [h]
    decide
  · exact (numstat_consumption "" "s" "n" "e" "d" "i" "p" "t" "j" ""
      "" ["x"] [""] []).2.1 (by decide)

/-- C3: with an empty filter string every recognized field appears in the
emitted record; with a non-empty filter a field appears exactly when its
one-character code (a=name, e=email, h=sha, d=date and date_iso together,
s=subject, f=files, p=parents, t=tree) occurs in the filter string; the
filter acts through character membership only, so "as" and "sa" build
identical records. -/
theorem field_filtering (fl sha name email date date_iso : String)
    (parents : List String) (tree subject : String)
    (files : List FileEntry) :
    (fl = "" → mkRecord fl sha name email date date_iso parents tree
        subject files =
      ⟨some sha, some name, some email, some date, some date_iso,
        some subject, some files, some parents, some tree⟩) ∧
    (fl ≠ "" →
      (mkRecord fl sha name email date date_iso parents tree subject
          files).sha.isSome = pyIn 'h' fl ∧
      (mkRecord fl sha name email date date_iso parents tree subject
          files).name.isSome = pyIn 'a' fl ∧
      (mkRecord fl sha name email date date_iso parents tree subject
          files).email.isSome = pyIn 'e' fl ∧
      (mkRecord fl sha name email date date_iso parents tree subject
          files).date.isSome = pyIn 'd' fl ∧
      (mkRecord fl sha name email date date_iso parents tree subject
          files).date_iso.isSome = pyIn 'd' fl ∧
      (mkRecord fl sha name email date date_iso parents tree subject
          files).subject.isSome = pyIn 's' fl ∧
      (mkRecord fl sha name email date date_iso parents tree subject
          files).files.isSome = pyIn 'f' fl ∧
      (mkRecord fl sha name email date date_iso parents tree subject
          files).parents.isSome = pyIn 'p' fl ∧
      (mkRecord fl sha name email date date_iso parents tree subject
          files).tree.isSome = pyIn 't' fl) ∧
    mkRecord "as" sha name email date date_iso parents tree subject files =
      mkRecord "sa" sha name email date date_iso parents tree subject
        files := by
  refine ⟨?_, ?_, ?_⟩
  · intro h
    subst h
    simp [mkRecord, includeField]
  · intro h
    have hbe : (fl == "") = false := by simpa using h
    refine ⟨?_, ?_, ?_, ?_, ?_, ?_, ?_, ?_, ?_⟩ <;>
      simp [mkRecord, isSome_ite, includeField, hbe]
  · have e1 : includeField "as" 'h' = includeField "sa" 'h' := by decide
    have e2 : includeField "as" 'a' = includeField "sa" 'a' := by decide
    have e3 : includeField "as" 'e' = includeField "sa" 'e' := by decide
    have e4 : includeField "as" 'd' = includeField "sa" 'd' := by decide
    have e5 : includeField "as" 's' = includeField "sa" 's' := by decide
    have e6 : includeField "as" 'f' = includeField "sa" 'f' := by decide
    have e7 : includeField "as" 'p' = includeField "sa" 'p' := by decide
    have e8 : includeField "as" 't' = includeField "sa" 't' := by decide
    simp [mkRecord, e1, e2, e3, e4, e5, e6, e7, e8]

theorem field_filtering_witness :
    mkRecord "as" "S" "N" "E" "D" "DI" ["P"] "T" "J" [] =
      mkRecord "sa" "S" "N" "E" "D" "DI" ["P"] "T" "J" [] ∧
    (mkRecord "as" "S" "N" "E" "D" "DI" ["P"] "T" "J" []).name.isSome =
      pyIn 'a' "as" := by
  have h := field_filtering "as" "S" "N" "E" "D" "DI" ["P"] "T" "J" []
  exact ⟨h.2.2, (h.2.1 (by decide)).2.1⟩

/-- C4 (amended): in tabular output mode each commit with N file changes
produces exactly N rows, so a zero-file commit produces no row at all (not
one row with empty file fields as the original claim said); the two-commit
scenario stream yields 2 data rows plus the header row, 3 lines in all
(not 3 + 1). -/
theorem tabular_row_counts (cs : List CommitRecord) (rows : List Row)
    (h : json_normalize cs = .ok rows) :
    rows.length = (cs.map (fun c => (c.files.getD []).length)).sum ∧
    (git_log "" scenarioStream).map List.length = .ok 3 :=
  ⟨json_normalize_length cs rows h, git_log_scenario_len⟩

theorem tabular_row_counts_witness :
    ([] : List Row).length =
      (([] : List CommitRecord).map
        (fun c => (c.files.getD []).length)).sum ∧
    (git_log "" scenarioStream).map List.length = .ok 3 :=
  tabular_row_counts [] [] rfl

/-- C4 counterexample: the claim predicts a header row plus 3 data rows
(one of them for the zero-file commit), 4 lines in all, on the two-commit
scenario; the pipeline produces a header row plus only 2 data rows. -/
theorem tabular_row_counts_cex :
    (git_log "" scenarioStream).map List.length = .ok 3 ∧
    (git_log "" scenarioStream).map List.length ≠ .ok 4 := by
  refine ⟨git_log_scenario_len, ?_⟩
  rw [git_log_scenario_len]
  decide

/-- C5: the log invocation of source line 136 runs a hard-coded command
string, so the executed command line is the same for every caller argument
list and does not contain the caller's remaining arguments, although the
dead code of lines 122-130 composes them as the claim describes. -/
theorem invocation_ignores_caller_args :
    (∀ args : List String, invokedCommandLine args = invokedCommandLine []) ∧
    "--author=Alice" ∈ composedArgs ["--author=Alice"] ∧
    "--author=Alice" ∉
      splitOnChar ' ' (invokedCommandLine ["--author=Alice"]) :=
  ⟨fun _ => rfl, by decide, by decide⟩

/-- C6: a filter string holding any character outside aehdsfpt makes the
log invocation fail with the usage error, uniformly in the captured
output, so before any parsing and with no partial output (the script exits
with status -2). -/
theorem unrecognized_filter_flag_usage_error (fl : String)
    (lines : List String) (ch : Char) (hmem : ch ∈ fl.toList)
    (hbad : pyIn ch "aehdsfpt" = false) :
    git_log fl lines = .error (.usage "Unrecognized flag") := by
  have hcf : check_flags fl "aehdsfpt" = true := by
    unfold check_flags
    exact List.any_eq_true.mpr ⟨ch, hmem, by simp [hbad]⟩
  unfold git_log
  rw [if_pos hcf]

theorem unrecognized_filter_flag_usage_error_witness :
    git_log "x" ["@@@@@@@@@@"] = .error (.usage "Unrecognized flag") :=
  unrecognized_filter_flag_usage_error "x" ["@@@@@@@@@@"] 'x'
    (by decide) (by decide)

/-- C7: the shortlog aggregator splits each stripped line on tabs; with at
least two fields the first must parse as an integer count and the rest,
re-joined, is the author label; with email aggregation a label splitting on
the angle bracket into exactly two parts gives the trimmed name and the
trimmed email with its trailing character removed, any other split count
silently drops the entry; lines without a tab are silently skipped; the
two concrete examples of the claim hold. -/
theorem shortlog_line_parsing :
    (parseShortlogLine true "  5\tAlice <a@example.com>" =
      .ok (some ⟨"Alice", some "a@example.com", 5⟩)) ∧
    (parseShortlogLine false "  5\tAlice <a@example.com>" =
      .ok (some ⟨"Alice <a@example.com>", none, 5⟩)) ∧
    (∀ (b : Bool) (line : String),
      (splitOnChar '\t' (pyStrip line)).length ≤ 1 →
      parseShortlogLine b line = .ok none) ∧
    (∀ (line f0 f1 : String) (fr : List String) (c : Int),
      splitOnChar '\t' (pyStrip line) = f0 :: f1 :: fr →
      pyInt f0 = .ok c →
      (parseShortlogLine false line =
        .ok (some ⟨pyJoin " " (f1 :: fr), none, c⟩)) ∧
      ((splitOnChar '<' (pyJoin " " (f1 :: fr))).length ≠ 2 →
        parseShortlogLine true line = .ok none) ∧
      (∀ a b2 : String,
        splitOnChar '<' (pyJoin " " (f1 :: fr)) = [a, b2] →
        parseShortlogLine true line =
          .ok (some ⟨pyStrip a, some (pyDropLast (pyStrip b2)), c⟩))) := by
  refine ⟨by decide, by decide, ?_, ?_⟩
  · intro b line h
    rcases hs : splitOnChar '\t' (pyStrip line) with _ | ⟨f0, _ | ⟨f1, fr⟩⟩
    · simp [parseShortlogLine, hs]
    · simp [parseShortlogLine, hs]
    · rw [hs] at h
      simp at h
  · intro line f0 f1 fr c hs hint
    refine ⟨?_, ?_, ?_⟩
    · simp [parseShortlogLine, hs, hint]
    · intro hlen
      rcases hsp : splitOnChar '<' (pyJoin " " (f1 :: fr)) with
        _ | ⟨a, _ | ⟨b2, _ | ⟨x, t⟩⟩⟩
      · simp [parseShortlogLine, hs, hint, hsp]
      · simp [parseShortlogLine, hs, hint, hsp]
      · rw [hsp] at hlen
        simp at hlen
      · simp [parseShortlogLine, hs, hint, hsp]
    · intro a b2 hsp
      simp [parseShortlogLine, hs, hint, hsp]

theorem shortlog_line_parsing_witness :
    parseShortlogLine false "2\tBob" = .ok (some ⟨"Bob", none, 2⟩) ∧
    parseShortlogLine true "no tab here" = .ok none := by
  have h := shortlog_line_parsing
  constructor
  · have h4 := (h.2.2.2 "2\tBob" "2" "Bob" [] 2 (by decide) (by decide)).1
    rw [h4]
    decide
  · exact h.2.2.1 true "no tab here" (by decide)

/-- C8: a stream whose final record block has fewer than eight header
lines after its marker before the end of input is a hard parse failure:
the parser raises IndexError and no record list (partial or otherwise) is
produced. -/
theorem truncated_final_block_errors (fl : String) (bs : List Block)
    (tail : List String) (hwf : ∀ b ∈ bs, WFBlock b)
    (hlen : tail.length < 8) :
    parseCommits fl (renderBlocks bs ++ START_OF_COMMIT :: tail) =
      .error "IndexError" := by
  rw [parseCommits_blocks fl bs _ (fun b hb => (hwf b hb).1)
      (Or.inr ⟨tail, rfl⟩),
    parseCommits_truncated fl tail hlen]
  rfl

theorem truncated_final_block_errors_witness :
    parseCommits "" (renderBlocks [blockZeroFiles] ++
      START_OF_COMMIT :: ["deadbeef", "Alice"]) = .error "IndexError" :=
  truncated_final_block_errors "" [blockZeroFiles] ["deadbeef", "Alice"]
    (by decide) (by decide)

/-- C9 (amended): in shortlog mode, when every argument survives the flag
scan (it is non-empty, and a dash-led one has a second character) and the
argument list contains no single-dash flag whose characters include s, the
program prints the empty JSON array [], whatever the external command
printed.  (Without the added guard the claim fails: a bare "-" argument
makes the scan itself raise IndexError.) -/
theorem shortlog_empty_without_summary_flag (args lines : List String)
    (hsafe : ∀ arg ∈ args, arg ≠ "" ∧ (arg.front = '-' → 2 ≤ arg.length))
    (hno : ∀ arg ∈ args, ¬ singleDashFlagWith 's' arg) :
    git_shortlog_output args lines = .ok "[]" := by
  have hs := has_flag_false_of_safe args 's' hsafe hno
  obtain ⟨bn, hn⟩ := has_flag_ok_of_false hs 'n'
  obtain ⟨be, he⟩ := has_flag_ok_of_false hs 'e'
  unfold git_shortlog_output git_shortlog
  rw [hs, hn, he]
  rfl

theorem shortlog_empty_without_summary_flag_witness :
    git_shortlog_output ["shortlog", "-n"]
      ["  5\tAlice <a@example.com>", ""] = .ok "[]" :=
  shortlog_empty_without_summary_flag ["shortlog", "-n"]
    ["  5\tAlice <a@example.com>", ""] (by decide) (by decide)

/-- C9 counterexample: the argument list ["shortlog", "-"] contains no
single-dash flag whose characters include s, yet the program does not
print []: the flag scan raises IndexError on the bare dash before looking
at the command output. -/
theorem shortlog_flag_scan_cex :
    (∀ arg ∈ ["shortlog", "-"], ¬ singleDashFlagWith 's' arg) ∧
    git_shortlog_output ["shortlog", "-"]
      ["  5\tAlice <a@example.com>", ""] = .error "IndexError" :=
  ⟨by decide, by decide⟩

/-- C10 (amended): a non-empty filter string of recognized codes that
omits any of f, a, d, s, h makes the flattening step fail on the first
record, so when parsing yields at least one commit record the pipeline
errors while building the tabular output and writes no file.  (With zero
records the original claim fails: flattening succeeds trivially and the
file is written.) -/
theorem restrictive_filter_flatten_error (fl : String)
    (lines : List String) (cs : List CommitRecord)
    (h0 : check_flags fl "aehdsfpt" = false)
    (h1 : fl ≠ "")
    (h2 : parseCommits fl lines = .ok cs)
    (h3 : cs ≠ [])
    (h4 : pyIn 'f' fl = false ∨ pyIn 'a' fl = false ∨
      pyIn 'd' fl = false ∨ pyIn 's' fl = false ∨ pyIn 'h' fl = false) :
    ∃ e, git_log fl lines = .error (.normalize e) := by
  rcases cs with _ | ⟨c, cs'⟩
  · exact absurd rfl h3
  have hbe : (fl == "") = false := by simpa using h1
  obtain ⟨hff, hfa, hfd, hfs, hfh⟩ :=
    parseCommits_fields fl lines (c :: cs') h2 c (by simp)
  have hflat : ∃ e0, flattenRecord c = .error e0 := by
    rcases hcf : c.files with _ | fs
    · exact ⟨"KeyError", by simp [flattenRecord, hcf]⟩
    rcases hcn : c.name with _ | n
    · exact ⟨"KeyError", by simp [flattenRecord, hcf, hcn]⟩
    rcases hcd : c.date_iso with _ | di
    · exact ⟨"KeyError", by simp [flattenRecord, hcf, hcn, hcd]⟩
    rcases hcs2 : c.subject with _ | s
    · exact ⟨"KeyError", by simp [flattenRecord, hcf, hcn, hcd, hcs2]⟩
    rcases hch : c.sha with _ | sh
    · exact ⟨"KeyError", by simp [flattenRecord, hcf, hcn, hcd, hcs2, hch]⟩
    exfalso
    rw [hcf] at hff
    rw [hcn] at hfa
    rw [hcd] at hfd
    rw [hcs2] at hfs
    rw [hch] at hfh
    simp only [Option.isSome_some, includeField, hbe,
      Bool.false_or] at hff hfa hfd hfs hfh
    rcases h4 with h4 | h4 | h4 | h4 | h4 <;> simp_all
  obtain ⟨e0, he0⟩ := hflat
  refine ⟨e0, ?_⟩
  unfold git_log
  rw [if_neg (by simp [h0]), h2]
  simp [json_normalize, he0]

theorem restrictive_filter_flatten_error_witness :
    ∃ e, git_log "e" scenarioStream = .error (.normalize e) :=
  restrictive_filter_flatten_error "e" scenarioStream
    [blockRecord "e" blockTwoFiles, blockRecord "e" blockZeroFiles]
    (by decide) (by decide) (parseCommits_scenario "e") (by decide)
    (Or.inl (by decide))

/-- C10 counterexample: with the filter "e" (non-empty, omitting f, a, d,
s and h) and an empty log, parsing yields no records, flattening succeeds
trivially, and the csv file is written: the pipeline does not fail. -/
theorem restrictive_filter_cex :
    "e" ≠ "" ∧ pyIn 'f' "e" = false ∧ git_log "e" [""] = .ok [[]] := by
  refine ⟨by decide, by decide, ?_⟩
  unfold git_log
  rw [if_neg (by decide), parseCommits_blank]
  rfl
